import Mathlib

/-!
Verification development for the resilient multi-key access layer and the
expert/synthesizer orchestration pipeline of the a-search system.

The Python source is shallowly embedded: pure control flow is translated to
Lean functions, the wall clock is an explicit `now : Nat` argument, the
pool-wide lock is elided (every operation is atomic in the model, matching
the lock-guarded source), and remote network calls are supplied as oracles.
-/

/-- State of one credential: the timestamp before which the key must not be
offered, and the permanent-failure flag.  Mirrors the per-key dict
`{"available_at": 0, "failed": False}` in `ApiKeyManager.__init__`. -/
structure KeyInfo where
  available_at : Nat
  failed : Bool
deriving DecidableEq

/-- The credential pool (`ApiKeyManager`).  `key_indices` is the fixed
rotation order (`self._key_indices`, the dict keys in insertion order),
`info` is the per-key state (`self.keys`), `cooldown_seconds` and
`current_index` are the corresponding Python attributes.  The Python dict
and the index list always hold the same keys, so the membership test
`api_key in self.keys` is modelled as membership in `key_indices`. -/
structure ApiKeyManager where
  key_indices : List String
  info : String → KeyInfo
  cooldown_seconds : Nat
  current_index : Nat

/-- Availability test from `get_key`:
`not key_info["failed"] and time.time() >= key_info["available_at"]`. -/
def isAvailable (m : ApiKeyManager) (now : Nat) (k : String) : Bool :=
  !(m.info k).failed && decide ((m.info k).available_at ≤ now)

/-- The scan loop of `get_key`: starting from `current_index`, check up to
`len(key_indices)` positions in rotation order and return the first
available key together with the position where it was found. -/
def findAvailable (m : ApiKeyManager) (now : Nat) : Option (Nat × String) :=
  (List.range m.key_indices.length).findSome? fun j =>
    let idx := (m.current_index + j) % m.key_indices.length
    (m.key_indices.get? idx).bind fun k =>
      if isAvailable m now k then some (idx, k) else none

/-- `ApiKeyManager.get_key`.  Returns the first available key in rotation
order, or `none` when every key is on cooldown or failed.  When
`peek = false` the shared cursor advances past the returned key; when
`peek = true` the state is untouched. -/
def get_key (m : ApiKeyManager) (peek : Bool) (now : Nat) : Option String × ApiKeyManager :=
  match findAvailable m now with
  | some p =>
    (some p.2,
      if peek then m
      else { m with current_index := (p.1 + 1) % m.key_indices.length })
  | none => (none, m)

/-- `ApiKeyManager.report_failure`.  A rate limit puts the key on cooldown
(`available_at = now + cooldown_seconds`); otherwise the key is marked
permanently failed.  Unknown keys are ignored (`if api_key in self.keys`). -/
def report_failure (m : ApiKeyManager) (api_key : String) (is_rate_limit : Bool) (now : Nat) :
    ApiKeyManager :=
  if api_key ∈ m.key_indices then
    if is_rate_limit then
      { m with info := fun k =>
          if k = api_key then { m.info k with available_at := now + m.cooldown_seconds }
          else m.info k }
    else
      { m with info := fun k =>
          if k = api_key then { m.info k with failed := true } else m.info k }
  else m

/-- `ApiKeyManager.release_key`.  Resets `available_at` to `0` after a
successful use (the reportSuccess operation).  Unknown keys are ignored. -/
def release_key (m : ApiKeyManager) (api_key : String) : ApiKeyManager :=
  if api_key ∈ m.key_indices then
    { m with info := fun k =>
        if k = api_key then { m.info k with available_at := 0 } else m.info k }
  else m

/-- One pool operation, for quantifying over arbitrary call sequences:
acquire (`get_key` with either peek flag), a rate-limit report, a
permanent-failure report, or a success report. -/
inductive PoolOp where
  | acquire (peek : Bool) (now : Nat)
  | rateLimited (k : String) (now : Nat)
  | permFailed (k : String) (now : Nat)
  | succeeded (k : String)

/-- Effect of one pool operation on the pool state. -/
def applyOp (m : ApiKeyManager) : PoolOp → ApiKeyManager
  | .acquire peek now => (get_key m peek now).2
  | .rateLimited k now => report_failure m k true now
  | .permFailed k now => report_failure m k false now
  | .succeeded k => release_key m k

/-- Effect of a sequence of pool operations. -/
def applyOps (m : ApiKeyManager) (ops : List PoolOp) : ApiKeyManager :=
  ops.foldl applyOp m

/-- A sample three-key pool with every key healthy, used as a concrete
witness input. -/
def mgr3 : ApiKeyManager :=
  { key_indices := ["a", "b", "c"]
    info := fun _ => { available_at := 0, failed := false }
    cooldown_seconds := 60
    current_index := 0 }

/-- Common shape of the two available-timestamp writes of the source
(`release_key` writes `0`, the rate-limit branch of `report_failure` writes
`now + cooldown_seconds`): set `available_at` of one pool member to `v`. -/
def updateAvail (m : ApiKeyManager) (api_key : String) (v : Nat) : ApiKeyManager :=
  if api_key ∈ m.key_indices then
    { m with info := fun k =>
        if k = api_key then { m.info k with available_at := v } else m.info k }
  else m

/-- The pool key sitting `j` positions after the cursor in rotation order. -/
def keyAt (m : ApiKeyManager) (j : Nat) : String :=
  (m.key_indices.get? ((m.current_index + j) % m.key_indices.length)).getD ""

/-- Scenario driver for the rotation properties of spec section 8: perform
`i` sequential pairs of `get_key` (non-peek) followed by a report `upd` on
the acquired key, collecting the acquired keys in order.  A failed
acquisition reports nothing. -/
def rounds (upd : ApiKeyManager → String → ApiKeyManager) (now : Nat)
    (m : ApiKeyManager) : Nat → ApiKeyManager × List String
  | 0 => (m, [])
  | i + 1 =>
    let p := rounds upd now m i
    match get_key p.1 false now with
    | (some k, m1) => (upd m1 k, p.2 ++ [k])
    | (none, m1) => (m1, p.2)

/-- The fixed user-facing message `settings.texts.all_keys_failed`. -/
def all_keys_failed_text : String :=
  "Все доступные API-ключи не работают. Придется немного подождать."

/-- The fixed user-facing message `settings.texts.no_expert_opinions`. -/
def no_expert_opinions_text : String :=
  "Эксперты не смогли предоставить мнения. Попробуй переформулировать запрос."

/-- A model function call (`google.genai.types.FunctionCall`): the call name
and the `query` entry of its argument dict, the only argument the source
reads (`tool_call.args.get(\x27query\x27, \x27\x27)` is modelled by
`query.getD \x22\x22`). -/
structure FunctionCall where
  name : String
  query : Option String
deriving DecidableEq

/-- The normalized completion result (`app.schemas.gemini_schemas.GeminiResponse`).
The raw candidate list, retained only for diagnostics, is elided. -/
structure GeminiResponse where
  text : Option String
  function_call : Option FunctionCall
  finish_reason : String
deriving DecidableEq

/-- The fixed result returned by `generate_response` when every key failed:
`GeminiResponse(text=settings.texts.all_keys_failed, finish_reason="ALL_KEYS_FAILED")`. -/
def allKeysFailedResponse : GeminiResponse :=
  { text := some all_keys_failed_text, function_call := none
    finish_reason := "ALL_KEYS_FAILED" }

/-- Outcome of one remote completion attempt, as classified by the
`try/except` arms of the retry loop of `generate_response`: a successful
response (already run through `_process_gemini_response`), a
`ResourceExhausted` rate limit, a `PermissionDenied` rejection, or any
other exception. -/
inductive CallOutcome where
  | success (r : GeminiResponse)
  | rateLimited
  | permissionDenied
  | otherError

/-- The retry loop of `generate_response` (`for i in range(len(keys))`).
`backend` is the oracle for the remote call of attempt `i` with a given
key; `fuel` counts the remaining loop iterations; the final `Nat` in the
result counts how many backend calls were made.  A failed acquisition
breaks out of the loop; exhausting the loop returns the fixed
all-keys-failed response. -/
def generateResponseLoop (backend : Nat → String → CallOutcome) (now : Nat) :
    Nat → Nat → ApiKeyManager → Nat → GeminiResponse × ApiKeyManager × Nat
  | 0, _, m, calls => (allKeysFailedResponse, m, calls)
  | fuel + 1, i, m, calls =>
    match get_key m false now with
    | (none, m1) => (allKeysFailedResponse, m1, calls)
    | (some k, m1) =>
      match backend i k with
      | .success r => (r, release_key m1 k, calls + 1)
      | .rateLimited =>
        generateResponseLoop backend now fuel (i + 1) (report_failure m1 k true now) (calls + 1)
      | .permissionDenied =>
        generateResponseLoop backend now fuel (i + 1) (report_failure m1 k false now) (calls + 1)
      | .otherError =>
        generateResponseLoop backend now fuel (i + 1) (report_failure m1 k true now) (calls + 1)

/-- `generate_response` of `gemini_service`, restricted to its retry loop:
the loop bound is the pool size captured at entry. -/
def generate_response (backend : Nat → String → CallOutcome) (now : Nat)
    (m : ApiKeyManager) : GeminiResponse × ApiKeyManager × Nat :=
  generateResponseLoop backend now m.key_indices.length 0 m 0

/-- Outcome of the caller-supplied block wrapped by `get_key_for_session`.
`cancelled` stands for a `BaseException` that is not an `Exception`
subclass (`asyncio.CancelledError` on Python 3.8+, `GeneratorExit`,
`KeyboardInterrupt`): such exceptions match none of the `except` arms of
the source. -/
inductive SessionOutcome where
  | normal
  | permissionDenied
  | resourceExhausted
  | otherException
  | cancelled
deriving DecidableEq

/-- One disposition report issued to the pool during a session. -/
inductive KeyReport where
  | released (k : String)
  | rateLimited (k : String)
  | permanentlyFailed (k : String)
deriving DecidableEq

/-- How the session terminates: the distinguishable RuntimeError raised when
no key is available, normal completion, or a re-raised exception. -/
inductive SessionExit where
  | errNoKey
  | ok (k : String)
  | reraised (o : SessionOutcome) (k : String)
deriving DecidableEq

/-- `ApiKeyManager.get_key_for_session`: acquire a key (raising a
RuntimeError, modelled as `errNoKey`, if none is available), run the block
(its outcome is the `outcome` argument), then dispatch exactly as the
`try/except` arms of the source.  The Python `except Exception` arms do not
catch `cancelled` (a non-`Exception` `BaseException`), which therefore
propagates with no report. -/
def get_key_for_session (m : ApiKeyManager) (now : Nat) (outcome : SessionOutcome) :
    SessionExit × List KeyReport × ApiKeyManager :=
  match get_key m false now with
  | (none, m1) => (.errNoKey, [], m1)
  | (some k, m1) =>
    match outcome with
    | .normal => (.ok k, [.released k], release_key m1 k)
    | .permissionDenied =>
      (.reraised .permissionDenied k, [.permanentlyFailed k], report_failure m1 k false now)
    | .resourceExhausted =>
      (.reraised .resourceExhausted k, [.rateLimited k], report_failure m1 k true now)
    | .otherException =>
      (.reraised .otherException k, [.rateLimited k], report_failure m1 k true now)
    | .cancelled => (.reraised .cancelled k, [], m1)

/-- Python truthiness of an optional string (`if op:`): `None` and the
empty string are falsy. -/
def pyTruthy : Option String → Bool
  | none => false
  | some s => !(s == "")

/-- The opinion filter of `_run_experts_and_synthesizer`:
`[op for op, q in expert_responses if op]`. -/
def opinionsOf (results : List (Option String × Option String)) : List String :=
  results.filterMap fun p => if pyTruthy p.1 then p.1 else none

/-- The query filter of `_run_experts_and_synthesizer`:
`[q for op, q in expert_responses if q]`. -/
def queriesOf (results : List (Option String × Option String)) : List String :=
  results.filterMap fun p => if pyTruthy p.2 then p.2 else none

/-- Separator used to join expert opinions. -/
def joinSep : String := "\n\n---\n\n"

/-- A single-quote character, kept as a code point. -/
def quoteChar : String := String.singleton (Char.ofNat 39)

/-- The synthesis input built by `_run_experts_and_synthesizer`. -/
def synthesisContext (user_content combined : String) : String :=
  "User Query: " ++ quoteChar ++ user_content ++ quoteChar
    ++ "\n\nExpert Opinions:\n" ++ combined

/-- The fixed short-circuit result when no expert produced an opinion. -/
def noOpinionsResponse : GeminiResponse :=
  { text := some no_expert_opinions_text, function_call := none
    finish_reason := "NO_OPINIONS" }

/-- The fan-in part of `_run_experts_and_synthesizer`: `results` holds the
per-expert `(opinion, ddg query)` pairs produced by the sequential expert
loop, in configured order; `synth` is the oracle for the synthesizer
`generate_response` call.  Returns the final response, the collected
non-empty queries, and the list of arguments the synthesizer was invoked
with (so its call count is the length of that list).  The final
presentation-layer formatting of the query list
(comma join of the sorted deduplicated set) is elided; the raw collected
list is returned instead. -/
def run_experts_and_synthesizer (user_content : String)
    (results : List (Option String × Option String))
    (synth : String → GeminiResponse) : GeminiResponse × List String × List String :=
  let expert_opinions := opinionsOf results
  let ddg_queries := queriesOf results
  if expert_opinions.isEmpty then (noOpinionsResponse, ddg_queries, [])
  else
    let combined := String.intercalate joinSep expert_opinions
    let ctx := synthesisContext user_content combined
    (synth ctx, ddg_queries, [ctx])

/-- The per-expert logic of `run_expert` in `user_handlers`, after its
`generate_response` call returned `response`: when the expert is a RAG
expert and the response carries a `duckduckgo_search` function call with a
non-empty query, the second `generate_response` call (oracle
`finalResponse`) supplies the opinion and the query is recorded; in every
other case the first response text is the opinion and no query is
recorded. -/
def run_expert (is_rag : Bool) (response : GeminiResponse)
    (finalResponse : GeminiResponse) : Option String × Option String :=
  match is_rag, response.function_call with
  | true, some tc =>
    if tc.name = "duckduckgo_search" then
      let query := tc.query.getD ""
      if query ≠ "" then (finalResponse.text, some query)
      else (response.text, none)
    else (response.text, none)
  | _, _ => (response.text, none)

/-- A one-key pool whose key is healthy. -/
def mgr1 : ApiKeyManager :=
  { key_indices := ["a"]
    info := fun _ => { available_at := 0, failed := false }
    cooldown_seconds := 60
    current_index := 0 }

/-- A one-key pool whose key is on cooldown until time 100. -/
def coolMgr : ApiKeyManager :=
  { key_indices := ["a"]
    info := fun _ => { available_at := 100, failed := false }
    cooldown_seconds := 60
    current_index := 0 }

/-- A placeholder response used where an oracle argument is irrelevant. -/
def emptyResponse : GeminiResponse :=
  { text := none, function_call := none, finish_reason := "" }

/-- One part of a request content block (`google.genai.types.Part`), in the
shapes this code base produces: plain text, a file reference, or a
function call. -/
inductive GPart where
  | text (s : String)
  | fileData (mime uri : String)
  | fcall (tc : FunctionCall)
deriving DecidableEq

/-- A request content block (`google.genai.types.Content`): the role as
passed by the source (which may be missing) and the processed parts. -/
structure GContent where
  role : Option String
  parts : List GPart
deriving DecidableEq

/-- A Python string found as a history message content: either a plain
string (for which `json.loads` fails or yields a non-media value) or a
string that parses as a media JSON dict (`{"type": "media", ...}`) with
optional `uri` and `caption` entries. -/
inductive PyStr where
  | plain (s : String)
  | mediaJson (mime : String) (uri : Option String) (caption : Option String)
deriving DecidableEq

/-- One element of a history message content list, in the shapes this code
base produces: a plain string, an already-built `types.Part`, a dict with a
`function_call` entry, a dict with a `function_response` entry whose
response dict has a `result` string (the shape built by `run_expert`), or
any other value (which the loop ignores). -/
inductive HPart where
  | str (s : String)
  | gpart (p : GPart)
  | fcallDict (tc : FunctionCall)
  | frespDict (name result : String)
  | skipped
deriving DecidableEq

/-- The content of a history message: a Python string, or a list of parts.
A non-list non-string content value is wrapped by the source into a
singleton list (`parts_to_process = content if isinstance(content, list)
else [content]`), so it is modelled as a singleton `items` list. -/
inductive HContent where
  | pystr (s : PyStr)
  | items (ps : List HPart)
deriving DecidableEq

/-- One history entry handed to `generate_response`: a dict (whose `role`
entry is used as is, and whose effective content is
`msg.get(\x27content\x27) or msg.get(\x27parts\x27)`, collapsed here into
the single `content` field) or an object (whose role `assistant` is mapped
to `model`). -/
structure HistMsg where
  fromDict : Bool
  role : Option String
  content : Option HContent
deriving DecidableEq

/-- The role actually attached to the produced content block. -/
def effectiveRole (msg : HistMsg) : Option String :=
  if msg.fromDict then msg.role
  else if msg.role = some "assistant" then some "model" else msg.role

/-- Per-part translation of the inner loop over `parts_to_process`. -/
def partOf : HPart → Option GPart
  | .str s => some (.text s)
  | .gpart p => some p
  | .fcallDict tc => some (.fcall tc)
  | .frespDict _ result => some (.text result)
  | .skipped => none

/-- The processed parts of one history message: the media-JSON branch
(file reference plus truthy caption, or nothing when the stored record has
no `uri`), or the part-by-part loop. -/
def processParts : HContent → List GPart
  | .pystr (.plain s) => [.text s]
  | .pystr (.mediaJson mime uri cap) =>
    match uri with
    | some u =>
      GPart.fileData mime u ::
        (match cap with
         | some c => if c ≠ "" then [GPart.text c] else []
         | none => [])
    | none => []
  | .items ps => ps.filterMap partOf

/-- The contribution of one history message to `final_contents`: nothing
when the message has no content or its processed parts are empty, else one
content block with the effective role. -/
def contentOf (msg : HistMsg) : Option GContent :=
  match msg.content with
  | none => none
  | some c =>
    let parts := processParts c
    if parts.isEmpty then none
    else some { role := effectiveRole msg, parts := parts }

/-- The content-construction phase of `generate_response` (its history loop
followed by appending the current turn): fold the history in order,
appending a block per contributing message, then append one final
user-role block holding the current turn text and file parts when any
exist. -/
def buildContents (history : List HistMsg) (user_parts : List GPart) : List GContent :=
  let final_contents := history.foldl
    (fun acc msg =>
      match msg.content with
      | none => acc
      | some c =>
        let parts := processParts c
        if parts.isEmpty then acc
        else acc ++ [{ role := effectiveRole msg, parts := parts }])
    []
  if user_parts.isEmpty then final_contents
  else final_contents ++ [{ role := some "user", parts := user_parts }]

/-- The transport chunk limit of `user_handlers`. -/
def TELEGRAM_MAX_MESSAGE_LENGTH : Nat := 4096

/-- Python `str.isspace` on the ASCII whitespace characters, the class
stripped by `str.lstrip()`. -/
def pyIsSpace (c : Char) : Bool :=
  c == ' ' || c == '\t' || c == '\n' || c == '\r'
    || c == Char.ofNat 11 || c == Char.ofNat 12

/-- Python `text.lstrip()` on a character-list view of the string. -/
def lstrip (l : List Char) : List Char := l.dropWhile pyIsSpace

/-- Python `text.rfind(\x27\n\x27, 0, stop)`: the highest index below
`stop` (and below the length) holding a newline, or `none` where Python
returns `-1`. -/
def rfindNewline (l : List Char) (stop : Nat) : Option Nat :=
  (List.range (min stop l.length)).reverse.find? fun i => l.getD i ' ' == '\n'

/-- The chunk-splitting `while` loop of `send_large_message`, on a
character-list view of the text.  `fuel` bounds the iterations; every
iteration either terminates or removes at least one character, so
`length + 1` fuel always suffices. -/
def splitLoop : Nat → List Char → List (List Char)
  | 0, _ => []
  | fuel + 1, text =>
    if text.length = 0 then []
    else if TELEGRAM_MAX_MESSAGE_LENGTH < text.length then
      let split_pos :=
        match rfindNewline text TELEGRAM_MAX_MESSAGE_LENGTH with
        | some p => p
        | none => TELEGRAM_MAX_MESSAGE_LENGTH
      text.take split_pos :: splitLoop fuel (lstrip (text.drop split_pos))
    else [text]

/-- The parts list computed by `send_large_message` for a given cleaned
text. -/
def send_large_message_parts (text : List Char) : List (List Char) :=
  splitLoop (text.length + 1) text

-- Helper lemmas ------------------------------------------------------------

theorem findSome?_eq_none_of {α β : Type} (l : List α) (f : α → Option β)
    (h : ∀ a ∈ l, f a = none) : l.findSome? f = none := by
  induction l with
  | nil => rfl
  | cons a as ih =>
    simp only [List.findSome?]
    rw [h a (by simp)]
    exact ih fun x hx => h x (by simp [hx])

theorem findSome?_some_exists {α β : Type} (l : List α) (f : α → Option β) (b : β)
    (h : l.findSome? f = some b) : ∃ a ∈ l, f a = some b := by
  induction l with
  | nil => simp [List.findSome?] at h
  | cons a as ih =>
    simp only [List.findSome?] at h
    cases hfa : f a with
    | some c =>
      rw [hfa] at h
      exact ⟨a, by simp, hfa.trans h⟩
    | none =>
      rw [hfa] at h
      obtain ⟨x, hx, hfx⟩ := ih h
      exact ⟨x, by simp [hx], hfx⟩

/-- A key returned by `get_key` is a pool member and was available. -/
theorem get_key_some (m : ApiKeyManager) (peek : Bool) (now : Nat) (c : String)
    (h : (get_key m peek now).1 = some c) :
    c ∈ m.key_indices ∧ isAvailable m now c = true := by
  unfold get_key at h
  cases hfa : findAvailable m now with
  | none => rw [hfa] at h; simp at h
  | some p =>
    rw [hfa] at h
    simp only at h
    obtain ⟨j, _, hj⟩ := findSome?_some_exists _ _ _ hfa
    simp only at hj
    cases hget : m.key_indices.get? ((m.current_index + j) % m.key_indices.length) with
    | none => rw [hget] at hj; simp at hj
    | some k =>
      rw [hget] at hj
      simp only [Option.some_bind] at hj
      by_cases hav : isAvailable m now k = true
      · rw [if_pos hav] at hj
        cases hj
        simp only [Option.some.injEq] at h
        rw [← h]
        exact ⟨List.get?_mem hget, hav⟩
      · rw [if_neg hav] at hj
        cases hj

/-- The key list is never changed by any pool operation. -/
theorem applyOp_key_indices (m : ApiKeyManager) (op : PoolOp) :
    (applyOp m op).key_indices = m.key_indices := by
  cases op with
  | acquire peek now =>
    simp only [applyOp, get_key]
    cases findAvailable m now with
    | some p => cases peek <;> simp
    | none => simp
  | rateLimited k now =>
    simp only [applyOp, report_failure]
    split <;> simp
  | permFailed k now =>
    simp only [applyOp, report_failure]
    split <;> simp
  | succeeded k =>
    simp only [applyOp, release_key]
    split <;> simp

/-- The permanent-failure flag of any key is never cleared by any pool
operation. -/
theorem applyOp_failed_mono (m : ApiKeyManager) (op : PoolOp) (c : String)
    (h : (m.info c).failed = true) : ((applyOp m op).info c).failed = true := by
  cases op with
  | acquire peek now =>
    simp only [applyOp, get_key]
    cases findAvailable m now with
    | some p => cases peek <;> simpa using h
    | none => simpa using h
  | rateLimited k now =>
    simp only [applyOp, report_failure]
    split
    · by_cases hck : c = k
      · subst hck; simp [h]
      · simp [hck, h]
    · exact h
  | permFailed k now =>
    simp only [applyOp, report_failure]
    split
    · by_cases hck : c = k
      · subst hck; simp [h]
      · simp [hck, h]
    · exact h
  | succeeded k =>
    simp only [applyOp, release_key]
    split
    · by_cases hck : c = k
      · subst hck; simp [h]
      · simp [hck, h]
    · exact h

theorem applyOps_key_indices (m : ApiKeyManager) (ops : List PoolOp) :
    (applyOps m ops).key_indices = m.key_indices := by
  induction ops generalizing m with
  | nil => rfl
  | cons op rest ih =>
    simp only [applyOps, List.foldl_cons]
    rw [show List.foldl applyOp (applyOp m op) rest = applyOps (applyOp m op) rest from rfl,
      ih, applyOp_key_indices]

theorem applyOps_failed_mono (m : ApiKeyManager) (ops : List PoolOp) (c : String)
    (h : (m.info c).failed = true) : ((applyOps m ops).info c).failed = true := by
  induction ops generalizing m with
  | nil => exact h
  | cons op rest ih =>
    simp only [applyOps, List.foldl_cons]
    exact ih (applyOp m op) (applyOp_failed_mono m op c h)

/-- After `report_failure c is_rate_limit=False`, the flag of `c` is set
whenever `c` is a pool member. -/
theorem report_failure_sets_failed (m : ApiKeyManager) (c : String) (now : Nat)
    (h : c ∈ m.key_indices) :
    ((report_failure m c false now).info c).failed = true := by
  simp [report_failure, h]

-- Claim theorems -----------------------------------------------------------

/-- C1: after `report_failure` with `is_rate_limit = False` on a credential
`c` (reportPermanentFailure), no subsequent `get_key` call, with peek true
or false, ever returns `c` again, whatever sequence of
acquire/rate-limit/permanent-failure/success operations is run on the pool
in between. -/
theorem permanently_failed_never_acquired (m : ApiKeyManager) (c : String) (now0 : Nat)
    (ops : List PoolOp) (peek : Bool) (now : Nat) :
    (get_key (applyOps (report_failure m c false now0) ops) peek now).1 ≠ some c := by
  intro hsome
  obtain ⟨hmem, havail⟩ := get_key_some _ _ _ _ hsome
  by_cases hc : c ∈ m.key_indices
  · have hfail : ((applyOps (report_failure m c false now0) ops).info c).failed = true :=
      applyOps_failed_mono _ ops c (report_failure_sets_failed m c now0 hc)
    simp [isAvailable, hfail] at havail
  · rw [applyOps_key_indices] at hmem
    have : (report_failure m c false now0).key_indices = m.key_indices := by
      simp [report_failure, hc]
    rw [this] at hmem
    exact hc hmem

/-- C10: calling `report_failure` or `release_key` with a string that is not
one of the pool credentials is a silent no-op: no exception path exists in
the model (both are total functions), and the entire pool state, including
every key state and the rotation cursor, is returned unchanged. -/
theorem unknown_key_noop (m : ApiKeyManager) (k : String) (b : Bool) (now : Nat)
    (h : k ∉ m.key_indices) :
    report_failure m k b now = m ∧ release_key m k = m := by
  constructor
  · simp [report_failure, h]
  · simp [release_key, h]

/-- Witness for C10 at a concrete pool and a concrete foreign key. -/
theorem unknown_key_noop_witness :
    "zzz" ∉ mgr3.key_indices ∧
      (report_failure mgr3 "zzz" true 5 = mgr3 ∧ release_key mgr3 "zzz" = mgr3) :=
  ⟨by decide, unknown_key_noop mgr3 "zzz" true 5 (by decide)⟩

-- Rotation machinery -------------------------------------------------------

theorem findSome?_range_head {β : Type} (n : Nat) (f : Nat → Option β) (b : β)
    (hn : 0 < n) (h : f 0 = some b) : (List.range n).findSome? f = some b := by
  obtain ⟨n0, rfl⟩ := Nat.exists_eq_succ_of_ne_zero hn.ne'
  rw [List.range_succ_eq_map]
  simp only [List.findSome?]
  rw [h]

theorem release_key_eq_updateAvail (mm : ApiKeyManager) (k : String) :
    release_key mm k = updateAvail mm k 0 := rfl

theorem report_failure_true_eq_updateAvail (mm : ApiKeyManager) (k : String) (now : Nat) :
    report_failure mm k true now = updateAvail mm k (now + mm.cooldown_seconds) := by
  simp [report_failure, updateAvail]

theorem updateAvail_key_indices (mm : ApiKeyManager) (k : String) (v : Nat) :
    (updateAvail mm k v).key_indices = mm.key_indices := by
  unfold updateAvail; split <;> simp

theorem updateAvail_cooldown (mm : ApiKeyManager) (k : String) (v : Nat) :
    (updateAvail mm k v).cooldown_seconds = mm.cooldown_seconds := by
  unfold updateAvail; split <;> simp

theorem updateAvail_current_index (mm : ApiKeyManager) (k : String) (v : Nat) :
    (updateAvail mm k v).current_index = mm.current_index := by
  unfold updateAvail; split <;> simp

theorem updateAvail_info_self (mm : ApiKeyManager) (k : String) (v : Nat)
    (hmem : k ∈ mm.key_indices) :
    (updateAvail mm k v).info k = { mm.info k with available_at := v } := by
  simp [updateAvail, hmem]

theorem updateAvail_info_other (mm : ApiKeyManager) (k x : String) (v : Nat)
    (hne : x ≠ k) : (updateAvail mm k v).info x = mm.info x := by
  unfold updateAvail
  split
  · simp [hne]
  · rfl

/-- When the key under the cursor is available, `get_key` returns it and
advances the cursor by one position. -/
theorem get_key_at_cursor (mm : ApiKeyManager) (now : Nat) (k : String)
    (hcur : mm.current_index < mm.key_indices.length)
    (hget : mm.key_indices.get? mm.current_index = some k)
    (havail : isAvailable mm now k = true) :
    get_key mm false now =
      (some k, { mm with current_index := (mm.current_index + 1) % mm.key_indices.length }) := by
  have hn : 0 < mm.key_indices.length := Nat.lt_of_le_of_lt (Nat.zero_le _) hcur
  have hfa : findAvailable mm now = some (mm.current_index, k) := by
    unfold findAvailable
    refine findSome?_range_head _ _ _ hn ?_
    show ((mm.key_indices.get? ((mm.current_index + 0) % mm.key_indices.length)).bind
        fun k2 => if isAvailable mm now k2 then
          some ((mm.current_index + 0) % mm.key_indices.length, k2) else none) = _
    rw [Nat.add_zero, Nat.mod_eq_of_lt hcur, hget]
    simp [havail]
  unfold get_key
  rw [hfa]
  simp

/-- When no pool member is available, `get_key` returns `none` and leaves
the state untouched, for either peek flag. -/
theorem get_key_none_of_unavailable (mm : ApiKeyManager) (peek : Bool) (now : Nat)
    (h : ∀ k ∈ mm.key_indices, isAvailable mm now k = false) :
    get_key mm peek now = (none, mm) := by
  have hfa : findAvailable mm now = none := by
    unfold findAvailable
    apply findSome?_eq_none_of
    intro j hj
    show ((mm.key_indices.get? ((mm.current_index + j) % mm.key_indices.length)).bind
        fun k => if isAvailable mm now k then
          some ((mm.current_index + j) % mm.key_indices.length, k) else none) = none
    cases hget : mm.key_indices.get? ((mm.current_index + j) % mm.key_indices.length) with
    | none => rfl
    | some k => simp [h k (List.get?_mem hget)]
  unfold get_key
  rw [hfa]

theorem keyAt_eq_get (m : ApiKeyManager) (hn : 0 < m.key_indices.length) (j : Nat) :
    keyAt m j = m.key_indices.get
      ⟨(m.current_index + j) % m.key_indices.length, Nat.mod_lt _ hn⟩ := by
  unfold keyAt
  rw [List.get?_eq_get (Nat.mod_lt _ hn)]
  rfl

theorem keyAt_mem (m : ApiKeyManager) (hn : 0 < m.key_indices.length) (j : Nat) :
    keyAt m j ∈ m.key_indices := by
  rw [keyAt_eq_get m hn j]
  exact List.get_mem _ _ _

theorem keyAt_inj (m : ApiKeyManager) (hn : 0 < m.key_indices.length)
    (hnd : m.key_indices.Nodup) (j1 j2 : Nat)
    (h1 : j1 < m.key_indices.length) (h2 : j2 < m.key_indices.length)
    (heq : keyAt m j1 = keyAt m j2) : j1 = j2 := by
  rw [keyAt_eq_get m hn j1, keyAt_eq_get m hn j2] at heq
  have hpos := (hnd.get_inj_iff.mp heq)
  have hmods : (m.current_index + j1) % m.key_indices.length
      = (m.current_index + j2) % m.key_indices.length := congrArg Fin.val hpos
  have hc := Nat.ModEq.add_left_cancel' m.current_index hmods
  rwa [Nat.ModEq, Nat.mod_eq_of_lt h1, Nat.mod_eq_of_lt h2] at hc

/-- Full characterization of `i ≤ pool size` acquire-and-report pairs on a
pool of healthy, pairwise-distinct keys, where the report writes
`available_at := v` on the reported key: the cursor advances one position
per pair, the acquired keys are the keys at rotation offsets `0, …, i-1`,
the reported keys carry `available_at = v`, and everything else is
untouched. -/
theorem rounds_spec (m : ApiKeyManager) (now v : Nat)
    (upd : ApiKeyManager → String → ApiKeyManager)
    (hupd : ∀ mm k, mm.cooldown_seconds = m.cooldown_seconds → upd mm k = updateAvail mm k v)
    (hn : 0 < m.key_indices.length)
    (hc : m.current_index < m.key_indices.length)
    (hnd : m.key_indices.Nodup)
    (hh : ∀ k ∈ m.key_indices, (m.info k).failed = false ∧ (m.info k).available_at ≤ now) :
    ∀ i, i ≤ m.key_indices.length →
      (rounds upd now m i).1.key_indices = m.key_indices ∧
      (rounds upd now m i).1.cooldown_seconds = m.cooldown_seconds ∧
      (rounds upd now m i).1.current_index
        = (m.current_index + i) % m.key_indices.length ∧
      (rounds upd now m i).2 = (List.range i).map (keyAt m) ∧
      (∀ j, j < i → (rounds upd now m i).1.info (keyAt m j)
        = { m.info (keyAt m j) with available_at := v }) ∧
      (∀ k, (∀ j, j < i → keyAt m j ≠ k) → (rounds upd now m i).1.info k = m.info k) := by
  intro i
  induction i with
  | zero =>
    intro _
    refine ⟨rfl, rfl, ?_, by simp [rounds], ?_, fun k _ => rfl⟩
    · show m.current_index = (m.current_index + 0) % m.key_indices.length
      rw [Nat.add_zero, Nat.mod_eq_of_lt hc]
    · intro j hj
      exact absurd hj (Nat.not_lt_zero j)
  | succ i ih =>
    intro hi
    have hile : i ≤ m.key_indices.length := Nat.le_of_succ_le hi
    have hilt : i < m.key_indices.length := hi
    obtain ⟨hkeys, hcd, hcur, hks, htouched, huntouched⟩ := ih hile
    have hpos : (m.current_index + i) % m.key_indices.length < m.key_indices.length :=
      Nat.mod_lt _ hn
    have hdist : ∀ j, j < i → keyAt m j ≠ keyAt m i := by
      intro j hj hcontra
      have := keyAt_inj m hn hnd j i (lt_trans hj hilt) hilt hcontra
      omega
    have huntouch_i : (rounds upd now m i).1.info (keyAt m i) = m.info (keyAt m i) :=
      huntouched _ hdist
    have hmem_i : keyAt m i ∈ m.key_indices := keyAt_mem m hn i
    have havail : isAvailable (rounds upd now m i).1 now (keyAt m i) = true := by
      obtain ⟨hf, ha⟩ := hh _ hmem_i
      simp [isAvailable, huntouch_i, hf, ha]
    have hgk : get_key (rounds upd now m i).1 false now =
        (some (keyAt m i),
          { (rounds upd now m i).1 with current_index :=
            ((rounds upd now m i).1.current_index + 1) % (rounds upd now m i).1.key_indices.length }) := by
      apply get_key_at_cursor
      · rw [hkeys, hcur]; exact hpos
      · rw [hkeys, hcur, List.get?_eq_get hpos, keyAt_eq_get m hn i]
      · obtain ⟨hf, ha⟩ := hh _ hmem_i
        simp [isAvailable, huntouch_i, hf, ha]
    have hstep : rounds upd now m (i + 1) =
        (upd { (rounds upd now m i).1 with current_index :=
            ((rounds upd now m i).1.current_index + 1) % (rounds upd now m i).1.key_indices.length }
          (keyAt m i),
         (rounds upd now m i).2 ++ [keyAt m i]) := by
      simp only [rounds]
      rw [hgk]
    have hupd_eq : upd { (rounds upd now m i).1 with current_index :=
        ((rounds upd now m i).1.current_index + 1) % (rounds upd now m i).1.key_indices.length }
        (keyAt m i) =
        updateAvail { (rounds upd now m i).1 with current_index :=
          ((rounds upd now m i).1.current_index + 1) % (rounds upd now m i).1.key_indices.length }
          (keyAt m i) v := by
      apply hupd
      exact hcd
    have hmem_i2 : keyAt m i ∈ ({ (rounds upd now m i).1 with current_index :=
        ((rounds upd now m i).1.current_index + 1) % (rounds upd now m i).1.key_indices.length } :
          ApiKeyManager).key_indices := by
      show keyAt m i ∈ (rounds upd now m i).1.key_indices
      rw [hkeys]; exact hmem_i
    refine ⟨?_, ?_, ?_, ?_, ?_, ?_⟩
    · rw [hstep, hupd_eq, updateAvail_key_indices]
      exact hkeys
    · rw [hstep, hupd_eq, updateAvail_cooldown]
      exact hcd
    · rw [hstep, hupd_eq, updateAvail_current_index]
      show ((rounds upd now m i).1.current_index + 1) % (rounds upd now m i).1.key_indices.length
        = (m.current_index + (i + 1)) % m.key_indices.length
      rw [hkeys, hcur, Nat.mod_add_mod]
      have harith : m.current_index + i + 1 = m.current_index + (i + 1) := by omega
      rw [harith]
    · rw [hstep]
      show (rounds upd now m i).2 ++ [keyAt m i] = (List.range (i + 1)).map (keyAt m)
      rw [hks, List.range_succ, List.map_append]
      rfl
    · intro j hj
      rw [hstep, hupd_eq]
      by_cases hji : j = i
      · rw [hji]
        rw [updateAvail_info_self _ _ _ hmem_i2]
        show { ((rounds upd now m i).1.info (keyAt m i)) with available_at := v } = _
        rw [huntouch_i]
      · have hjlt : j < i := by omega
        rw [updateAvail_info_other _ _ _ _ (hdist j hjlt)]
        exact htouched j hjlt
    · intro k hk
      rw [hstep, hupd_eq]
      have hknei : k ≠ keyAt m i := fun hcontra => hk i (Nat.lt_succ_self i) hcontra.symm
      rw [updateAvail_info_other _ _ _ _ hknei]
      exact huntouched k fun j hj => hk j (Nat.lt_succ_of_lt hj)

/-- The keys at rotation offsets `0, …, n-1` are exactly the pool keys
rotated to start at the cursor. -/
theorem map_keyAt_eq_rotate (m : ApiKeyManager) (hn : 0 < m.key_indices.length) :
    (List.range m.key_indices.length).map (keyAt m)
      = m.key_indices.rotate m.current_index := by
  apply List.ext_get
  · simp [List.length_rotate]
  · intro j h1 h2
    rw [List.get_map, List.get_rotate, List.get_range]
    rw [keyAt_eq_get m hn]
    congr 1
    simp [Nat.add_comm]

/-- C2: on a pool of M pairwise-distinct healthy credentials (none failed,
every `available_at` in the past), M sequential pairs of `get_key` (non-peek
acquire) followed by `release_key` (reportSuccess) with no intervening
failure reports return each of the M credentials exactly once — the
acquired sequence is a permutation of the pool, so no credential repeats
before every credential has been returned. -/
theorem round_robin_fairness (m : ApiKeyManager) (now : Nat)
    (hn : 0 < m.key_indices.length)
    (hc : m.current_index < m.key_indices.length)
    (hnd : m.key_indices.Nodup)
    (hh : ∀ k ∈ m.key_indices, (m.info k).failed = false ∧ (m.info k).available_at ≤ now) :
    List.Perm (rounds release_key now m m.key_indices.length).2 m.key_indices ∧
    ∀ k ∈ m.key_indices,
      ((rounds release_key now m m.key_indices.length).2).count k = 1 := by
  have hspec := rounds_spec m now 0 release_key
    (fun mm k _ => release_key_eq_updateAvail mm k) hn hc hnd hh
    m.key_indices.length le_rfl
  have hks := hspec.2.2.2.1
  rw [hks, map_keyAt_eq_rotate m hn]
  refine ⟨List.rotate_perm _ _, ?_⟩
  intro k hk
  rw [(List.rotate_perm m.key_indices m.current_index).count_eq]
  exact List.count_eq_one_of_mem hnd hk

/-- Witness for C2 on a concrete three-key pool. -/
theorem round_robin_fairness_witness :
    (0 < mgr3.key_indices.length ∧ mgr3.current_index < mgr3.key_indices.length ∧
      mgr3.key_indices.Nodup ∧
      ∀ k ∈ mgr3.key_indices, (mgr3.info k).failed = false ∧ (mgr3.info k).available_at ≤ 7) ∧
    (List.Perm (rounds release_key 7 mgr3 mgr3.key_indices.length).2 mgr3.key_indices ∧
      ∀ k ∈ mgr3.key_indices,
        ((rounds release_key 7 mgr3 mgr3.key_indices.length).2).count k = 1) :=
  ⟨⟨by decide, by decide, by decide, by decide⟩,
    round_robin_fairness mgr3 7 (by decide) (by decide) (by decide) (by decide)⟩

/-- C3: on a pool of N pairwise-distinct healthy credentials, N consecutive
pairs of `get_key` acquisition and `report_failure` with
`is_rate_limit = True` (reportRateLimited) at time `now` leave `get_key`
returning `none` (the NONE_AVAILABLE value of the model — an ordinary
return value, not an exception) on every call made at any time strictly
before the earliest cooldown expiry `now + cooldown_seconds`, for either
peek flag, and each such call also leaves the pool state unchanged, so the
`none` answers keep coming until the cooldown expires. -/
theorem all_on_cooldown_returns_none (m : ApiKeyManager) (now : Nat)
    (hn : 0 < m.key_indices.length)
    (hc : m.current_index < m.key_indices.length)
    (hnd : m.key_indices.Nodup)
    (hh : ∀ k ∈ m.key_indices, (m.info k).failed = false ∧ (m.info k).available_at ≤ now) :
    ∀ peek now2, now2 < now + m.cooldown_seconds →
      get_key (rounds (fun mm k => report_failure mm k true now) now m
          m.key_indices.length).1 peek now2 =
        (none, (rounds (fun mm k => report_failure mm k true now) now m
          m.key_indices.length).1) := by
  intro peek now2 hlt
  have hspec := rounds_spec m now (now + m.cooldown_seconds)
    (fun mm k => report_failure mm k true now)
    (fun mm k hcd => by
      show report_failure mm k true now = updateAvail mm k (now + m.cooldown_seconds)
      rw [report_failure_true_eq_updateAvail, hcd]) hn hc hnd hh
    m.key_indices.length le_rfl
  obtain ⟨hkeys, hcd, hcur, hks, htouched, -⟩ := hspec
  apply get_key_none_of_unavailable
  intro k hk
  rw [hkeys] at hk
  have hkmem : k ∈ (List.range m.key_indices.length).map (keyAt m) := by
    rw [map_keyAt_eq_rotate m hn]
    exact ((List.rotate_perm _ _).mem_iff).mpr hk
  obtain ⟨j, hj, rfl⟩ := List.mem_map.mp hkmem
  rw [List.mem_range] at hj
  have hinfo := htouched j hj
  have hnotle : ¬(now + m.cooldown_seconds ≤ now2) := by omega
  simp [isAvailable, hinfo, hnotle]

/-- Witness for C3 on a concrete three-key pool, probing at a time before
the earliest cooldown expiry. -/
theorem all_on_cooldown_witness :
    (0 < mgr3.key_indices.length ∧ mgr3.current_index < mgr3.key_indices.length ∧
      mgr3.key_indices.Nodup ∧
      (∀ k ∈ mgr3.key_indices, (mgr3.info k).failed = false ∧ (mgr3.info k).available_at ≤ 10) ∧
      40 < 10 + mgr3.cooldown_seconds) ∧
    get_key (rounds (fun mm k => report_failure mm k true 10) 10 mgr3
        mgr3.key_indices.length).1 false 40 =
      (none, (rounds (fun mm k => report_failure mm k true 10) 10 mgr3
        mgr3.key_indices.length).1) :=
  ⟨⟨by decide, by decide, by decide, by decide, by decide⟩,
    all_on_cooldown_returns_none mgr3 10 (by decide) (by decide) (by decide) (by decide)
      false 40 (by decide)⟩

-- Retry loop (C5) -----------------------------------------------------------

theorem generateResponseLoop_calls_le (backend : Nat → String → CallOutcome) (now : Nat) :
    ∀ fuel i m calls,
      (generateResponseLoop backend now fuel i m calls).2.2 ≤ calls + fuel := by
  intro fuel
  induction fuel with
  | zero =>
    intro i m calls
    simp [generateResponseLoop]
  | succ fuel ih =>
    intro i m calls
    simp only [generateResponseLoop]
    split
    · show calls ≤ calls + (fuel + 1)
      omega
    · split
      · show calls + 1 ≤ calls + (fuel + 1)
        omega
      · exact Nat.le_trans (ih _ _ _) (by omega)
      · exact Nat.le_trans (ih _ _ _) (by omega)
      · exact Nat.le_trans (ih _ _ _) (by omega)

theorem generateResponseLoop_no_success (backend : Nat → String → CallOutcome) (now : Nat)
    (hno : ∀ i k r, backend i k ≠ CallOutcome.success r) :
    ∀ fuel i m calls,
      (generateResponseLoop backend now fuel i m calls).1 = allKeysFailedResponse := by
  intro fuel
  induction fuel with
  | zero => intro i m calls; rfl
  | succ fuel ih =>
    intro i m calls
    simp only [generateResponseLoop]
    split
    · rfl
    · split
      · rename_i r1 heq3
        exact absurd heq3 (hno _ _ r1)
      · exact ih _ _ _
      · exact ih _ _ _
      · exact ih _ _ _

theorem generateResponseLoop_none (backend : Nat → String → CallOutcome) (now : Nat)
    (fuel i : Nat) (m : ApiKeyManager) (calls : Nat)
    (hnone : (get_key m false now).1 = none) :
    generateResponseLoop backend now (fuel + 1) i m calls
      = (allKeysFailedResponse, (get_key m false now).2, calls) := by
  have hpair : get_key m false now = (none, (get_key m false now).2) := Prod.ext hnone rfl
  simp only [generateResponseLoop]
  rw [hpair]

/-- C5: the retry loop of `generate_response` makes at most pool-size
backend calls; when no backend attempt succeeds it returns the fixed
all-credentials-exhausted response as a value (it never raises); and when
acquisition already yields NONE_AVAILABLE at entry it stops immediately
with that fixed response and zero backend calls. -/
theorem retry_loop_bounded (backend : Nat → String → CallOutcome) (now : Nat)
    (m : ApiKeyManager) :
    (generate_response backend now m).2.2 ≤ m.key_indices.length ∧
    ((∀ i k r, backend i k ≠ CallOutcome.success r) →
      (generate_response backend now m).1 = allKeysFailedResponse) ∧
    ((get_key m false now).1 = none →
      (generate_response backend now m).1 = allKeysFailedResponse ∧
        (generate_response backend now m).2.2 = 0) := by
  refine ⟨?_, ?_, ?_⟩
  · have h := generateResponseLoop_calls_le backend now m.key_indices.length 0 m 0
    simpa [generate_response] using h
  · intro hno
    exact generateResponseLoop_no_success backend now hno m.key_indices.length 0 m 0
  · intro hnone
    unfold generate_response
    cases hn : m.key_indices.length with
    | zero => exact ⟨rfl, rfl⟩
    | succ n0 =>
      rw [generateResponseLoop_none backend now n0 0 m 0 hnone]
      exact ⟨rfl, rfl⟩

/-- Witness for C5 on a concrete pool with a backend that always reports a
rate limit. -/
theorem retry_loop_bounded_witness :
    (generate_response (fun _ _ => CallOutcome.rateLimited) 0 mgr3).2.2
        ≤ mgr3.key_indices.length ∧
      (generate_response (fun _ _ => CallOutcome.rateLimited) 0 mgr3).1
        = allKeysFailedResponse :=
  ⟨(retry_loop_bounded (fun _ _ => CallOutcome.rateLimited) 0 mgr3).1,
    (retry_loop_bounded (fun _ _ => CallOutcome.rateLimited) 0 mgr3).2.1
      fun _ _ _ h => CallOutcome.noConfusion h⟩

-- Scoped session (C4) -------------------------------------------------------

/-- C4 counterexample: on a healthy one-key pool, a cancellation
(`asyncio.CancelledError` and friends, which `except Exception` does not
catch) exits `get_key_for_session` with zero disposition reports, not
exactly one. -/
theorem session_cancellation_counterexample :
    ¬((get_key_for_session mgr1 0 SessionOutcome.cancelled).2.1.length = 1) := by
  decide

/-- C4 amended: `get_key_for_session` exits with the distinguishable
`errNoKey` error and no report when no credential is available; when a
credential is acquired it issues exactly one disposition report on normal
completion (release) and on each `Exception`-class error path (permanent
failure for permission errors, cooldown for rate-limit and unknown
errors) and re-raises; but on cancellation, which is not an
`Exception`, it issues no report at all and the cancellation propagates. -/
theorem session_disposition_reports (m : ApiKeyManager) (now : Nat)
    (outcome : SessionOutcome) :
    ((get_key m false now).1 = none →
      get_key_for_session m now outcome
        = (SessionExit.errNoKey, [], (get_key m false now).2)) ∧
    (∀ k, (get_key m false now).1 = some k →
      (get_key_for_session m now outcome).2.1
          = (match outcome with
             | .normal => [KeyReport.released k]
             | .permissionDenied => [KeyReport.permanentlyFailed k]
             | .resourceExhausted => [KeyReport.rateLimited k]
             | .otherException => [KeyReport.rateLimited k]
             | .cancelled => []) ∧
        (get_key_for_session m now outcome).1
          = (match outcome with
             | .normal => SessionExit.ok k
             | o => SessionExit.reraised o k)) := by
  constructor
  · intro hnone
    have hpair : get_key m false now = (none, (get_key m false now).2) :=
      Prod.ext hnone rfl
    unfold get_key_for_session
    rw [hpair]
  · intro k hk
    have hpair : get_key m false now = (some k, (get_key m false now).2) :=
      Prod.ext hk rfl
    unfold get_key_for_session
    rw [hpair]
    cases outcome <;> exact ⟨rfl, rfl⟩

/-- Witness for C4 on a concrete healthy pool with a normal completion. -/
theorem session_disposition_reports_witness :
    (get_key mgr1 false 0).1 = some "a" ∧
      (get_key_for_session mgr1 0 SessionOutcome.normal).2.1 = [KeyReport.released "a"] :=
  ⟨by decide,
    ((session_disposition_reports mgr1 0 SessionOutcome.normal).2 "a" (by decide)).1⟩

-- Orchestration (C6, C7) ----------------------------------------------------

/-- C6: when the expert loop produced no truthy opinion the orchestrator
returns the fixed no-opinions response and never invokes the synthesizer
(its invocation log is empty); when at least one opinion exists the
synthesizer is invoked exactly once, on the synthesis context built from
the separator-joined non-empty opinions, and its answer is returned. -/
theorem synthesizer_call_semantics (user_content : String)
    (results : List (Option String × Option String))
    (synth : String → GeminiResponse) :
    (opinionsOf results = [] →
      run_experts_and_synthesizer user_content results synth
        = (noOpinionsResponse, queriesOf results, [])) ∧
    (opinionsOf results ≠ [] →
      run_experts_and_synthesizer user_content results synth
        = (synth (synthesisContext user_content
              (String.intercalate joinSep (opinionsOf results))),
            queriesOf results,
            [synthesisContext user_content
              (String.intercalate joinSep (opinionsOf results))])) := by
  constructor
  · intro h
    simp [run_experts_and_synthesizer, h]
  · intro h
    have hne : (opinionsOf results).isEmpty = false := by
      cases hop : opinionsOf results with
      | nil => exact absurd hop h
      | cons a l => rfl
    simp [run_experts_and_synthesizer, hne]

/-- Witness for C6: a run where the one expert abstained, and a run where
the one expert produced an opinion. -/
theorem synthesizer_call_semantics_witness :
    (opinionsOf [((none : Option String), (none : Option String))] = [] ∧
      run_experts_and_synthesizer "q" [(none, none)]
          (fun s => { text := some s, function_call := none, finish_reason := "STOP" })
        = (noOpinionsResponse, queriesOf [(none, none)], [])) ∧
    (opinionsOf [(some "op", (none : Option String))] ≠ [] ∧
      run_experts_and_synthesizer "q" [(some "op", none)]
          (fun s => { text := some s, function_call := none, finish_reason := "STOP" })
        = ((fun s => ({ text := some s, function_call := none, finish_reason := "STOP" } : GeminiResponse))
              (synthesisContext "q"
                (String.intercalate joinSep (opinionsOf [(some "op", none)]))),
            queriesOf [(some "op", none)],
            [synthesisContext "q"
              (String.intercalate joinSep (opinionsOf [(some "op", none)]))])) :=
  ⟨⟨by decide, (synthesizer_call_semantics "q" [(none, none)] _).1 (by decide)⟩,
    ⟨by decide, (synthesizer_call_semantics "q" [(some "op", none)] _).2 (by decide)⟩⟩

/-- C7 counterexample: an expert whose `generate_response` call finds every
credential exhausted receives the fixed all-keys-failed text as its
response text, and that text is counted as a (non-empty) opinion in the
synthesis input — it is not an abstention. -/
theorem exhausted_expert_opinion_counterexample :
    (run_expert false (generate_response (fun _ _ => CallOutcome.rateLimited) 5 coolMgr).1
        emptyResponse).1 = some all_keys_failed_text ∧
    opinionsOf
        [run_expert false (generate_response (fun _ _ => CallOutcome.rateLimited) 5 coolMgr).1
          emptyResponse] ≠ [] := by
  exact ⟨rfl, by decide⟩

/-- C7 amended: a per-expert failure is isolated — the expert results before
and after a credential-exhausted expert all still enter the opinion filter
unchanged — but credential exhaustion is not an abstention: the exhausted
expert contributes the fixed all-credentials-exhausted message to the
synthesis input as a non-empty opinion. -/
theorem expert_failure_isolation (backend : Nat → String → CallOutcome) (now : Nat)
    (m : ApiKeyManager) (hnone : (get_key m false now).1 = none)
    (is_rag : Bool) (finalResponse : GeminiResponse)
    (before after : List (Option String × Option String)) :
    (run_expert is_rag (generate_response backend now m).1 finalResponse).1
        = some all_keys_failed_text ∧
    opinionsOf (before
        ++ (run_expert is_rag (generate_response backend now m).1 finalResponse) :: after)
      = opinionsOf before ++ all_keys_failed_text :: opinionsOf after := by
  have hresp : (generate_response backend now m).1 = allKeysFailedResponse := by
    unfold generate_response
    cases hn : m.key_indices.length with
    | zero => rfl
    | succ n0 => rw [generateResponseLoop_none backend now n0 0 m 0 hnone]
  have hre : run_expert is_rag (generate_response backend now m).1 finalResponse
      = (some all_keys_failed_text, none) := by
    rw [hresp]
    cases is_rag <;> rfl
  refine ⟨by rw [hre], ?_⟩
  rw [hre]
  unfold opinionsOf
  rw [List.filterMap_append, List.filterMap_cons]
  have htruthy : (if pyTruthy ((some all_keys_failed_text : Option String),
      (none : Option String)).1 then some all_keys_failed_text else none)
      = some all_keys_failed_text := by decide
  rw [htruthy]

/-- Witness for C7 on a concrete pool whose only key is on cooldown, with
one abstaining expert before and one opining expert after. -/
theorem expert_failure_isolation_witness :
    (get_key coolMgr false 5).1 = none ∧
      opinionsOf ([((none : Option String), (none : Option String))]
          ++ (run_expert false (generate_response (fun _ _ => CallOutcome.otherError) 5 coolMgr).1
              emptyResponse) :: [(some "op", (none : Option String))])
        = opinionsOf [(none, none)]
          ++ all_keys_failed_text :: opinionsOf [(some "op", none)] :=
  ⟨by decide,
    (expert_failure_isolation (fun _ _ => CallOutcome.otherError) 5 coolMgr (by decide)
      false emptyResponse [(none, none)] [(some "op", none)]).2⟩

-- Content construction (C8) -------------------------------------------------

theorem buildContents_eq (history : List HistMsg) (user_parts : List GPart) :
    buildContents history user_parts
      = history.filterMap contentOf
        ++ (if user_parts.isEmpty then []
            else [{ role := some "user", parts := user_parts }]) := by
  unfold buildContents
  have hfold : ∀ (l : List HistMsg) (acc : List GContent),
      l.foldl
        (fun acc msg =>
          match msg.content with
          | none => acc
          | some c =>
            let parts := processParts c
            if parts.isEmpty then acc
            else acc ++ [{ role := effectiveRole msg, parts := parts }]) acc
        = acc ++ l.filterMap contentOf := by
    intro l
    induction l with
    | nil => intro acc; simp
    | cons msg rest ih =>
      intro acc
      rw [List.foldl_cons, List.filterMap_cons]
      cases hc : msg.content with
      | none =>
        rw [ih]
        have : contentOf msg = none := by simp [contentOf, hc]
        rw [this]
      | some c =>
        by_cases hp : (processParts c).isEmpty
        · have h1 : contentOf msg = none := by simp [contentOf, hc, hp]
          rw [h1]
          simp only [hp, if_pos]
          exact ih acc
        · have h1 : contentOf msg
              = some { role := effectiveRole msg, parts := processParts c } := by
            simp [contentOf, hc, hp]
          rw [h1]
          simp only [hp, if_neg]
          rw [ih]
          simp
  rw [hfold]
  split <;> simp

/-- C8 counterexample: a history entry with role `tool` is kept by the
content construction of `generate_response`, not dropped, so the built
request is not just the final user block. -/
theorem foreign_role_kept_counterexample :
    buildContents
        [{ fromDict := true, role := some "tool", content := some (.items [.str "x"]) }]
        [GPart.text "hi"]
      ≠ [{ role := some "user", parts := [GPart.text "hi"] }] := by
  decide

/-- C8 amended: the request content list is the in-order image of the
history (each entry with processable content contributing one block, with
its text preserved verbatim and its role preserved — entries with roles
other than user/model/assistant are kept too, not dropped; only entries
with no content or no processable parts are skipped, and `assistant` on an
object entry is renamed to `model`), followed by one final user-role block
holding the current turn, when it is non-empty. -/
theorem content_construction_amended (history : List HistMsg) (user_parts : List GPart) :
    buildContents history user_parts
      = history.filterMap contentOf
        ++ (if user_parts.isEmpty then []
            else [{ role := some "user", parts := user_parts }]) ∧
    (∀ r s, contentOf { fromDict := true, role := some r, content := some (.items [.str s]) }
      = some { role := some r, parts := [GPart.text s] }) ∧
    (∀ c, contentOf { fromDict := false, role := some "assistant", content := some c }
      = if (processParts c).isEmpty then none
        else some { role := some "model", parts := processParts c }) := by
  refine ⟨buildContents_eq history user_parts, fun r s => rfl, fun c => ?_⟩
  simp [contentOf, effectiveRole]

-- Chunk splitting (C9) ------------------------------------------------------

theorem rfindNewline_none (l : List Char) (stop : Nat)
    (h : ∀ c ∈ l, pyIsSpace c = false) : rfindNewline l stop = none := by
  unfold rfindNewline
  rw [List.find?_eq_none]
  intro i hi
  rw [List.mem_reverse, List.mem_range] at hi
  have hil : i < l.length := lt_of_lt_of_le hi (min_le_right _ _)
  have hmem : l.getD i ' ' ∈ l := by
    rw [List.getD_eq_getElem l ' ' hil]
    exact List.getElem_mem hil
  have hc := h _ hmem
  simp only [pyIsSpace, Bool.or_eq_false_iff] at hc
  have hne : ¬(l.getD i ' ' = '\n') := by
    intro he
    have hbad := hc.1.1.1.2
    rw [he] at hbad
    simp at hbad
  simpa using hne

theorem lstrip_eq_self (l : List Char) (h : ∀ c ∈ l, pyIsSpace c = false) :
    lstrip l = l := by
  unfold lstrip
  cases l with
  | nil => rfl
  | cons c cs =>
    rw [List.dropWhile_cons]
    rw [h c (by simp)]
    simp

theorem splitLoop_big (fuel : Nat) (text : List Char)
    (hbig : TELEGRAM_MAX_MESSAGE_LENGTH < text.length)
    (hnl : rfindNewline text TELEGRAM_MAX_MESSAGE_LENGTH = none) :
    splitLoop (fuel + 1) text
      = text.take TELEGRAM_MAX_MESSAGE_LENGTH
        :: splitLoop fuel (lstrip (text.drop TELEGRAM_MAX_MESSAGE_LENGTH)) := by
  have h0 : ¬(text.length = 0) := by
    have : (4096 : Nat) < text.length := hbig
    omega
  simp only [splitLoop]
  rw [if_neg h0, if_pos hbig, hnl]

theorem splitLoop_small (fuel : Nat) (text : List Char)
    (h0 : ¬(text.length = 0)) (hle : ¬(TELEGRAM_MAX_MESSAGE_LENGTH < text.length)) :
    splitLoop (fuel + 1) text = [text] := by
  simp only [splitLoop]
  rw [if_neg h0, if_neg hle]

/-- Shared computation: on a 9000-character text containing no whitespace
character, the splitting loop yields exactly three chunks — the remainder
after the first 4096-character chunk is 4904 characters, still above the
4096 limit, so it is split again into 4096 and 808. -/
theorem chunk9000_parts (t : List Char) (hlen : t.length = 9000)
    (hns : ∀ c ∈ t, pyIsSpace c = false) :
    send_large_message_parts t
      = [t.take 4096, (t.drop 4096).take 4096, (t.drop 4096).drop 4096] ∧
    (send_large_message_parts t).map List.length = [4096, 4096, 808] := by
  have hns1 : ∀ c ∈ t.drop 4096, pyIsSpace c = false :=
    fun c hc => hns c (List.drop_subset _ _ hc)
  have hns2 : ∀ c ∈ (t.drop 4096).drop 4096, pyIsSpace c = false :=
    fun c hc => hns1 c (List.drop_subset _ _ hc)
  have hlen1 : (t.drop 4096).length = 4904 := by
    rw [List.length_drop, hlen]
  have hlen2 : ((t.drop 4096).drop 4096).length = 808 := by
    rw [List.length_drop, hlen1]
  have hmain : send_large_message_parts t
      = [t.take 4096, (t.drop 4096).take 4096, (t.drop 4096).drop 4096] := by
    unfold send_large_message_parts
    rw [hlen]
    rw [splitLoop_big 9000 t (by rw [hlen]; decide) (rfindNewline_none t _ hns)]
    simp only [TELEGRAM_MAX_MESSAGE_LENGTH]
    rw [lstrip_eq_self _ hns1]
    rw [show (9000 : Nat) = 8999 + 1 from rfl]
    rw [splitLoop_big 8999 (t.drop 4096) (by rw [hlen1]; decide)
      (rfindNewline_none _ _ hns1)]
    simp only [TELEGRAM_MAX_MESSAGE_LENGTH]
    rw [lstrip_eq_self _ hns2]
    rw [show (8999 : Nat) = 8998 + 1 from rfl]
    rw [splitLoop_small 8998 _ (by rw [hlen2]; decide) (by rw [hlen2]; decide)]
  refine ⟨hmain, ?_⟩
  rw [hmain]
  simp only [List.map_cons, List.map_nil, List.length_take, hlen, hlen1, hlen2]
  rfl

/-- C9 counterexample: a 9000-character newline-free body does not split
into two chunks of 4096 and 4904 — the 4904-character remainder exceeds the
4096 limit and is split again. -/
theorem chunking_two_chunk_counterexample :
    (send_large_message_parts (List.replicate 9000 'a')).map List.length
      ≠ [4096, 4904] := by
  have h := chunk9000_parts (List.replicate 9000 'a') (by rw [List.length_replicate])
    (fun c hc => by rw [List.eq_of_mem_replicate hc]; rfl)
  rw [h.2]
  decide

/-- C9 amended: a response body of 9000 characters containing no whitespace
(in particular no newline, and no space at a split boundary that the
`lstrip` after each cut would remove) splits into exactly three ordered
chunks of 4096, 4096 and 808 characters — every chunk within the 4096
transport limit — and the chunks are the consecutive slices of the body. -/
theorem chunking_9000_amended (t : List Char) (hlen : t.length = 9000)
    (hns : ∀ c ∈ t, pyIsSpace c = false) :
    send_large_message_parts t
      = [t.take 4096, (t.drop 4096).take 4096, (t.drop 4096).drop 4096] ∧
    (send_large_message_parts t).map List.length = [4096, 4096, 808] :=
  chunk9000_parts t hlen hns

/-- Witness for C9 on a concrete 9000-character body. -/
theorem chunking_9000_witness :
    ((List.replicate 9000 'b').length = 9000 ∧
      ∀ c ∈ List.replicate 9000 'b', pyIsSpace c = false) ∧
    (send_large_message_parts (List.replicate 9000 'b')).map List.length
      = [4096, 4096, 808] :=
  ⟨⟨by rw [List.length_replicate], fun c hc => by rw [List.eq_of_mem_replicate hc]; rfl⟩,
    (chunking_9000_amended (List.replicate 9000 'b') (by rw [List.length_replicate])
      (fun c hc => by rw [List.eq_of_mem_replicate hc]; rfl)).2⟩
